import Mathlib

/-!
# Apollo agent: verification of the symbol cache, task manager and MCP invoker

Shallow embedding of the agent's execution substrate:

* `SymbolIndex` (symbol-index.js): a content-addressed cache of symbol
  trees keyed by file path, invalidated by MD5 content-hash mismatch,
  with write-through persistence to a knowledge base and cross-file
  search.
* `TaskManager` (src/agent/task-manager.js): an ordered task list with
  dependency gating and per-task status.
* `MCPClientManager.callTool` (src/mcp/serena-client.js): retry loop
  with exponential backoff around remote tool invocations.

JavaScript `Map`s are modelled as association lists preserving insertion
order (`set` updates in place or appends; iteration follows the list).
The file system is a function from full paths to optional contents, and
the MD5 hash is an abstract function on contents: `readFile` failing is
`none`, and `calculateFileHash` catching that failure and returning
`null` is `Option.map`.
-/

namespace Apollo

/-- JavaScript `String.prototype.includes`: contiguous substring
containment. -/
def strIncludes (s sub : String) : Bool :=
  s.toList.tails.any (fun t => sub.toList.isPrefixOf t)

/-- JS `Map.get`: first binding of the key, if any. -/
def mapGet {α : Type} (m : List (String × α)) (k : String) : Option α :=
  (m.find? (fun p => p.1 == k)).map (fun p => p.2)

/-- JS `Map.set`: overwrite in place when the key is present, else append
(insertion order is preserved, as for a JavaScript `Map`). -/
def mapSet {α : Type} (m : List (String × α)) (k : String) (v : α) : List (String × α) :=
  if m.any (fun p => p.1 == k) then
    m.map (fun p => if p.1 == k then (k, v) else p)
  else
    m ++ [(k, v)]

/-- JS `Map.delete`: remove the bindings of the key. -/
def mapDelete {α : Type} (m : List (String × α)) (k : String) : List (String × α) :=
  m.filter (fun p => p.1 != k)

/-- A code symbol as returned by Serena: a name, a kind tag, and nested
children in document order. -/
inductive SymbolNode : Type where
  | node (name : String) (kind : String) (children : List SymbolNode)

/-- The symbol's name. -/
def SymbolNode.name : SymbolNode → String
  | .node n _ _ => n

/-- The symbol's kind tag. -/
def SymbolNode.kind : SymbolNode → String
  | .node _ k _ => k

/-- The symbol's children. -/
def SymbolNode.children : SymbolNode → List SymbolNode
  | .node _ _ c => c

/-- `SymbolIndex.countSymbols`: number of symbols in a forest, children
included. -/
def countSymbols : List SymbolNode → Nat
  | [] => 0
  | .node _ _ children :: rest => 1 + countSymbols children + countSymbols rest

/-- The per-file record built by `SymbolIndex.indexFile` and held in the
cache and the knowledge base: `{filePath, hash, symbols, indexedAt,
symbolCount}`.  `hash` is `none` when `calculateFileHash` returned
`null`. -/
structure SymbolData : Type where
  filePath : String
  hash : Option String
  symbols : List SymbolNode
  indexedAt : Nat
  symbolCount : Nat

/-- The mutable state of a `SymbolIndex` instance: the in-memory cache,
the file-hash map, the `indexMetadata` counters, and the knowledge-base
(`this.kb`) category `symbols` it writes through to, keyed by memory
name. -/
structure SymbolIndexState : Type where
  cache : List (String × SymbolData)
  fileHashes : List (String × Option String)
  lastFullScan : Option Nat
  filesIndexed : Nat
  symbolsCount : Nat
  kb : List (String × SymbolData)

/-- The state built by the `SymbolIndex` constructor. -/
def symbolIndexInit : SymbolIndexState :=
  { cache := [], fileHashes := [], lastFullScan := none
    filesIndexed := 0, symbolsCount := 0, kb := [] }

/-- `path.join(projectPath, filePath)` as used by `indexFile`,
`getSymbols` and `needsReindexing`. -/
def pathJoin (a b : String) : String := a ++ "/" ++ b

/-- `SymbolIndex.getMemoryName`: `'_symbol_' +
filePath.replace(/[\/\.]/g, '_')`. -/
def getMemoryName (filePath : String) : String :=
  "_symbol_" ++ String.mk (filePath.toList.map fun c =>
    if c = '/' ∨ c = '.' then '_' else c)

/-- `SymbolIndex.calculateFileHash`: read the file and hash its
contents; a read failure is caught and surfaced as `null` (`none`).
`fs` maps a full path to its contents when readable, `md5` is the
content-hash function. -/
def calculateFileHash (md5 : String → String) (fs : String → Option String)
    (fullPath : String) : Option String :=
  (fs fullPath).map md5

/-- `SymbolIndex.hasFileChanged`: the freshly computed hash differs from
the cached one (JavaScript `!==`). -/
def hasFileChanged (md5 : String → String) (fs : String → Option String)
    (fullPath : String) (cachedHash : Option String) : Bool :=
  calculateFileHash md5 fs fullPath != cachedHash

/-- `SymbolIndex.indexFile`: hash the file, build the `symbolData`
record, store it in the memory cache and the file-hash map, persist it
to the knowledge base under its memory name, and bump the
`indexMetadata` counters.  Returns the new state and the record. -/
def indexFile (md5 : String → String) (fs : String → Option String)
    (st : SymbolIndexState) (filePath : String) (symbols : List SymbolNode)
    (projectPath : String) (now : Nat) : SymbolIndexState × SymbolData :=
  let fullPath := pathJoin projectPath filePath
  let hash := calculateFileHash md5 fs fullPath
  let symbolData : SymbolData :=
    { filePath := filePath, hash := hash, symbols := symbols
      indexedAt := now, symbolCount := countSymbols symbols }
  ({ st with
      cache := mapSet st.cache filePath symbolData
      fileHashes := mapSet st.fileHashes filePath hash
      kb := mapSet st.kb (getMemoryName filePath) symbolData
      filesIndexed := st.filesIndexed + 1
      symbolsCount := st.symbolsCount + symbolData.symbolCount },
   symbolData)

/-- `SymbolIndex.getSymbols`: `null` when the file is not in the cache;
otherwise recompute the hash of the live file and return `null` when it
differs from the cached hash, else the cached record. -/
def getSymbols (md5 : String → String) (fs : String → Option String)
    (st : SymbolIndexState) (filePath projectPath : String) : Option SymbolData :=
  match mapGet st.cache filePath with
  | none => none
  | some cached =>
    let fullPath := pathJoin projectPath filePath
    if hasFileChanged md5 fs fullPath cached.hash then none else some cached

/-- `SymbolIndex.invalidate`: drop the file from the memory cache, the
hash map and the knowledge base, and decrement `filesIndexed`
(`Math.max(0, filesIndexed - 1)` is `Nat` subtraction). -/
def invalidate (st : SymbolIndexState) (filePath : String) : SymbolIndexState :=
  { st with
      cache := mapDelete st.cache filePath
      fileHashes := mapDelete st.fileHashes filePath
      kb := mapDelete st.kb (getMemoryName filePath)
      filesIndexed := st.filesIndexed - 1 }

/-- `stats[kind] = (stats[kind] || 0) + 1` on a JavaScript object,
modelled as an association list in key-creation order. -/
def bumpKind (stats : List (String × Nat)) (k : String) : List (String × Nat) :=
  if stats.any (fun p => p.1 == k) then
    stats.map (fun p => if p.1 == k then (p.1, p.2 + 1) else p)
  else
    stats ++ [(k, 1)]

/-- `SymbolIndex.countSymbolsByKind`: bump the accumulator for each
symbol, recursing into children after the node itself. -/
def countSymbolsByKind : List SymbolNode → List (String × Nat) → List (String × Nat)
  | [], stats => stats
  | .node _ kind children :: rest, stats =>
    countSymbolsByKind rest (countSymbolsByKind children (bumpKind stats kind))

/-- `SymbolIndex.getCategoryStats`: fold `countSymbolsByKind` over every
cached record, in cache iteration order. -/
def getCategoryStats (st : SymbolIndexState) : List (String × Nat) :=
  st.cache.foldl (fun stats p => countSymbolsByKind p.2.symbols stats) []

/-- The record returned by `SymbolIndex.getStats`: the `indexMetadata`
fields plus `cacheSize` and the per-kind histogram. -/
structure Stats : Type where
  lastFullScan : Option Nat
  filesIndexed : Nat
  symbolsCount : Nat
  cacheSize : Nat
  categories : List (String × Nat)
deriving DecidableEq, Repr

/-- `SymbolIndex.getStats`. -/
def getStats (st : SymbolIndexState) : Stats :=
  { lastFullScan := st.lastFullScan
    filesIndexed := st.filesIndexed
    symbolsCount := st.symbolsCount
    cacheSize := st.cache.length
    categories := getCategoryStats st }

/-- The options object of `searchSymbols`/`findSymbolsInTree`:
`{kind, exactMatch = false}`. -/
structure SearchOptions : Type where
  kind : Option String
  exactMatch : Bool

/-- One element of the result array of `findSymbolsInTree`: the spread
symbol fields plus `filePath` and `namePath`. -/
structure SymbolMatch : Type where
  name : String
  kind : String
  children : List SymbolNode
  filePath : String
  namePath : String

/-- `SymbolIndex.findSymbolsInTree`: walk the forest in document order;
a node's qualified path extends `parentPath` with `/` (the root level
has no prefix); the node is tested before its children; a match needs
the lowercased name to equal (`exactMatch`) or contain (default) the
pre-lowercased query, and the kind to equal `options.kind` when set. -/
def findSymbolsInTree : List SymbolNode → String → String → SearchOptions → String → List SymbolMatch
  | [], _, _, _, _ => []
  | .node name kind children :: rest, searchName, filePath, options, parentPath =>
    (if (if options.exactMatch then name.toLower == searchName
         else strIncludes name.toLower searchName)
        && (options.kind.isNone || options.kind == some kind) then
       [{ name := name, kind := kind, children := children, filePath := filePath
          namePath := if parentPath = "" then name else parentPath ++ "/" ++ name }]
     else [])
    ++ findSymbolsInTree children searchName filePath options
         (if parentPath = "" then name else parentPath ++ "/" ++ name)
    ++ findSymbolsInTree rest searchName filePath options parentPath

/-- `SymbolIndex.searchSymbols`: lowercase the query once, then collect
`findSymbolsInTree` matches over every cache entry in insertion
order. -/
def searchSymbols (st : SymbolIndexState) (symbolName : String)
    (options : SearchOptions) : List SymbolMatch :=
  (st.cache.map (fun p =>
    findSymbolsInTree p.2.symbols symbolName.toLower p.1 options "")).flatten

/-! ## TaskManager (src/agent/task-manager.js) -/

/-- The status strings used by `TaskManager`: `'pending'`,
`'in-progress'`, `'completed'`, `'failed'`, `'skipped'`. -/
inductive TaskStatus : Type where
  | pending
  | inProgress
  | completed
  | failed
  | skipped
deriving DecidableEq, Repr

/-- A task object as built by `createPlan`/`addTask`. -/
structure Task : Type where
  id : Nat
  name : String
  status : TaskStatus
  type : String
  priority : String
  dependencies : List Nat
  result : Option String
  error : Option String
  startedAt : Option Nat
  completedAt : Option Nat
deriving DecidableEq, Repr

/-- The current plan record built by `createPlan`. -/
structure Plan : Type where
  id : Nat
  description : String
  created : Nat
  status : String
deriving DecidableEq, Repr

/-- The mutable state of a `TaskManager` instance. -/
structure TaskManagerState : Type where
  tasks : List Task
  taskIdCounter : Nat
  currentPlan : Option Plan
deriving DecidableEq, Repr

/-- The state built by the `TaskManager` constructor (and restored by
`reset`). -/
def taskManagerInit : TaskManagerState :=
  { tasks := [], taskIdCounter := 1, currentPlan := none }

/-- The fields of a task spec passed to `createPlan`/`addTask`;
`none` models an absent field defaulted by `|| 'task'` etc. -/
structure TaskSpec : Type where
  name : String
  type : Option String
  priority : Option String
  dependencies : Option (List Nat)

/-- The task object literal shared by `createPlan` and `addTask`. -/
def mkTask (id : Nat) (spec : TaskSpec) : Task :=
  { id := id, name := spec.name, status := .pending
    type := spec.type.getD "task", priority := spec.priority.getD "normal"
    dependencies := spec.dependencies.getD []
    result := none, error := none, startedAt := none, completedAt := none }

/-- `taskList.map(task => ({id: this.taskIdCounter++, ...}))`: assign
consecutive ids from the counter. -/
def assignTasks (counter : Nat) : List TaskSpec → Nat × List Task
  | [] => (counter, [])
  | spec :: rest =>
    let t := mkTask counter spec
    let (c, ts) := assignTasks (counter + 1) rest
    (c, t :: ts)

/-- `TaskManager.createPlan`: replace the plan (its id is `Date.now()`)
and the whole task list. -/
def createPlan (st : TaskManagerState) (description : String)
    (taskList : List TaskSpec) (now : Nat) : TaskManagerState × Plan :=
  let plan : Plan :=
    { id := now, description := description, created := now, status := "in-progress" }
  let (c, ts) := assignTasks st.taskIdCounter taskList
  ({ tasks := ts, taskIdCounter := c, currentPlan := some plan }, plan)

/-- `TaskManager.addTask`: append one pending task with the next id. -/
def addTask (st : TaskManagerState) (spec : TaskSpec) : TaskManagerState × Task :=
  let newTask := mkTask st.taskIdCounter spec
  ({ st with tasks := st.tasks ++ [newTask], taskIdCounter := st.taskIdCounter + 1 },
   newTask)

/-- `this.tasks.find(t => t.id === taskId)` followed by a mutation of the
found object: update the first task with the given id, keep the rest. -/
def updateTask (tasks : List Task) (taskId : Nat) (f : Task → Task) : List Task :=
  match tasks with
  | [] => []
  | t :: rest => if t.id = taskId then f t :: rest else t :: updateTask rest taskId f

/-- `TaskManager.startTask`: set status `in-progress` and `startedAt`
on the task with the given id, whatever its current status. -/
def startTask (st : TaskManagerState) (taskId : Nat) (now : Nat) : TaskManagerState :=
  { st with tasks := updateTask st.tasks taskId (fun t =>
      { t with status := .inProgress, startedAt := some now }) }

/-- `TaskManager.completeTask`: set status `completed`, `completedAt`
and `result` on the task with the given id, whatever its current
status. -/
def completeTask (st : TaskManagerState) (taskId : Nat) (result : Option String)
    (now : Nat) : TaskManagerState :=
  { st with tasks := updateTask st.tasks taskId (fun t =>
      { t with status := .completed, completedAt := some now, result := result }) }

/-- `TaskManager.failTask`: set status `failed`, `completedAt` and
`error` on the task with the given id, whatever its current status. -/
def failTask (st : TaskManagerState) (taskId : Nat) (error : String)
    (now : Nat) : TaskManagerState :=
  { st with tasks := updateTask st.tasks taskId (fun t =>
      { t with status := .failed, completedAt := some now, error := some error }) }

/-- `TaskManager.skipTask`: set status `skipped`, `completedAt` and
`result := reason` on the task with the given id, whatever its current
status. -/
def skipTask (st : TaskManagerState) (taskId : Nat) (reason : String)
    (now : Nat) : TaskManagerState :=
  { st with tasks := updateTask st.tasks taskId (fun t =>
      { t with status := .skipped, completedAt := some now, result := some reason }) }

/-- The dependency check inside `getNextTask`:
`depTask && depTask.status === 'completed'` for the first task with the
dependency's id. -/
def depCompleted (tasks : List Task) (depId : Nat) : Bool :=
  match tasks.find? (fun t => t.id == depId) with
  | some depTask => depTask.status == .completed
  | none => false

/-- `TaskManager.getNextTask`: the first pending task all of whose
dependencies resolve to completed tasks (an empty dependency list
qualifies immediately). -/
def getNextTask (st : TaskManagerState) : Option Task :=
  st.tasks.find? (fun task =>
    task.status == .pending && task.dependencies.all (depCompleted st.tasks))

/-- `TaskManager.isComplete`: every task is completed, skipped or
failed. -/
def isComplete (st : TaskManagerState) : Bool :=
  st.tasks.all (fun t =>
    t.status == .completed || t.status == .skipped || t.status == .failed)

/-- `TaskManager.reset`: empty task list, counter back to 1, no plan. -/
def reset (_st : TaskManagerState) : TaskManagerState :=
  taskManagerInit

/-! ## MCPClientManager.callTool (src/mcp/serena-client.js)

The remote endpoint's behaviour is a function from the attempt number
to that attempt's outcome; the loop body (reconnection plus
`client.callTool`) either returns a result or throws an error message.
Delays are recorded rather than slept. -/

/-- What one attempt of the `try` block produces: the tool result, or a
thrown error's message. -/
inductive AttemptResult : Type where
  | ok (r : String)
  | err (msg : String)

/-- The error classification in `callTool`'s `catch`: retryable iff the
message contains one of the five network-failure markers. -/
def isRetryableMsg (m : String) : Bool :=
  strIncludes m "fetch failed" ||
  strIncludes m "ECONNRESET" ||
  strIncludes m "ETIMEDOUT" ||
  strIncludes m "timeout" ||
  strIncludes m "disconnected"

/-- An error escaping `callTool`: either the wrapped
`MCP tool '...' failed after N attempts: cause` error thrown once
`attempt >= maxRetries`, or an error rethrown as-is. -/
inductive CallError : Type where
  | wrapped (toolName : String) (attempts : Nat) (cause : String)
  | plain (msg : String)
deriving DecidableEq, Repr

/-- The observable outcome of `callTool`: the returned result or thrown
error, the number of attempts executed, and the backoff delays slept in
order. -/
structure CallOutcome : Type where
  result : Except CallError String
  attemptsMade : Nat
  delays : List Nat
deriving Repr

/-- The retry loop of `callTool`, driven by a fuel argument: fuel `f` at
attempt `a` corresponds to the remaining iterations of
`for (attempt = a; attempt <= maxRetries; attempt++)` when
`f = maxRetries + 1 - a`.  Success returns immediately; a retryable
failure before the last attempt sleeps `retryDelayMs * 2^(attempt-1)`
and retries; the last attempt's failure is wrapped with the attempt
count; a non-retryable failure before the last attempt is rethrown
as-is.  Fuel 0 is the `throw lastError` after the loop, reachable only
when the loop body never ran. -/
def callToolLoop (outcome : Nat → AttemptResult) (toolName : String)
    (maxRetries retryDelayMs : Nat) : Nat → Nat → CallOutcome
  | 0, attempt => { result := .error (.plain "lastError"), attemptsMade := attempt - 1, delays := [] }
  | fuel + 1, attempt =>
    match outcome attempt with
    | .ok r => { result := .ok r, attemptsMade := attempt, delays := [] }
    | .err m =>
      if attempt < maxRetries && isRetryableMsg m then
        let delay := retryDelayMs * 2 ^ (attempt - 1)
        let rest := callToolLoop outcome toolName maxRetries retryDelayMs fuel (attempt + 1)
        { result := rest.result, attemptsMade := rest.attemptsMade
          delays := delay :: rest.delays }
      else if maxRetries ≤ attempt then
        { result := .error (.wrapped toolName attempt m), attemptsMade := attempt, delays := [] }
      else
        { result := .error (.plain m), attemptsMade := attempt, delays := [] }

/-- `MCPClientManager.callTool` with effective options
(`options.maxRetries || 3`, `options.retryDelayMs || 1000` are resolved
by the caller of this model): run the loop from attempt 1. -/
def callTool (outcome : Nat → AttemptResult) (toolName : String)
    (maxRetries retryDelayMs : Nat) : CallOutcome :=
  callToolLoop outcome toolName maxRetries retryDelayMs maxRetries 1

/-! ## Specification vocabulary for the search walk

Used to state (not to implement) what `findSymbolsInTree` computes: the
pre-order enumeration of a forest together with each node's qualified
path. -/

/-- Pre-order enumeration of a forest: each node, paired with its
qualified path (ancestor names joined by `/`, no prefix at the root
level), listed before its children; children before later siblings. -/
def preorderPaths (parentPath : String) : List SymbolNode → List (SymbolNode × String)
  | [] => []
  | .node name kind children :: rest =>
    (.node name kind children, if parentPath = "" then name else parentPath ++ "/" ++ name)
      :: (preorderPaths (if parentPath = "" then name else parentPath ++ "/" ++ name) children
          ++ preorderPaths parentPath rest)

/-- The match predicate of the search: lowercased name equals
(`exactMatch`) or contains (default) the pre-lowercased query, and the
kind passes the filter. -/
def nodeMatches (searchName : String) (options : SearchOptions) (s : SymbolNode) : Bool :=
  (if options.exactMatch then s.name.toLower == searchName
   else strIncludes s.name.toLower searchName)
  && (options.kind.isNone || options.kind == some s.kind)

/-- Concrete record for `a.js` (one class `A`), used by test
instances. -/
def sampleData : SymbolData :=
  { filePath := "a.js", hash := some "src"
    symbols := [SymbolNode.node "A" "class" []]
    indexedAt := 0, symbolCount := 1 }

/-- A one-file index state — `a.js` cached with both counters at 1 — as
produced by indexing `a.js` into a fresh index. -/
def sampleIndexState : SymbolIndexState :=
  { cache := [("a.js", sampleData)]
    fileHashes := [("a.js", some "src")]
    lastFullScan := none
    filesIndexed := 1, symbolsCount := 1
    kb := [("_symbol_a_js", sampleData)] }

/-- Concrete record for `f.js` holding the nested chain
`A > B > C`, used by the search test instances. -/
def nestedData : SymbolData :=
  { filePath := "f.js", hash := some "h"
    symbols := [SymbolNode.node "A" "class"
      [SymbolNode.node "B" "method"
        [SymbolNode.node "C" "variable" []]]]
    indexedAt := 0, symbolCount := 3 }

/-- A one-file index state caching the nested chain `A > B > C`. -/
def nestedIndexState : SymbolIndexState :=
  { cache := [("f.js", nestedData)]
    fileHashes := [("f.js", some "h")]
    lastFullScan := none
    filesIndexed := 1, symbolsCount := 3
    kb := [("_symbol_f_js", nestedData)] }

/-! ## Association-list map lemmas -/

theorem find?_mapSetFn {α : Type} (m : List (String × α)) (k : String) (v : α) :
    (m.map (fun p => if p.1 == k then (k, v) else p)).find? (fun p => p.1 == k) =
      if m.any (fun p => p.1 == k) then some (k, v) else none := by
  induction m with
  | nil => simp
  | cons p rest ih =>
    by_cases hp : (p.1 == k) = true
    · rw [List.map_cons, if_pos hp,
        @List.find?_cons_of_pos _ (fun q => q.1 == k) (k, v) _ (beq_self_eq_true k)]
      simp [List.any_cons, hp]
    · rw [List.map_cons, if_neg hp,
        @List.find?_cons_of_neg _ (fun q => q.1 == k) p _ hp, ih,
        List.any_cons, Bool.eq_false_iff.mpr hp, Bool.false_or]

theorem mapGet_mapSet_self {α : Type} (m : List (String × α)) (k : String) (v : α) :
    mapGet (mapSet m k v) k = some v := by
  unfold mapGet mapSet
  by_cases h : m.any (fun p => p.1 == k) = true
  · rw [if_pos h, find?_mapSetFn, if_pos h]
    rfl
  · rw [if_neg h, List.find?_append, List.find?_eq_none.mpr, Option.none_or,
      @List.find?_cons_of_pos _ (fun q => q.1 == k) (k, v) _ (beq_self_eq_true k)]
    · rfl
    · intro x hx hpx
      exact h (List.any_eq_true.mpr ⟨x, hx, hpx⟩)

theorem mapSet_mapSet_self {α : Type} (m : List (String × α)) (k : String) (v : α) :
    mapSet (mapSet m k v) k v = mapSet m k v := by
  have hkv : (if (k, v).1 == k then (k, v) else (k, v)) = ((k, v) : String × α) :=
    if_pos (beq_self_eq_true k)
  have hff : ∀ p : String × α,
      (if (if p.1 == k then (k, v) else p).1 == k then (k, v)
       else if p.1 == k then (k, v) else p) =
      (if p.1 == k then (k, v) else p) := by
    intro p
    by_cases hp : (p.1 == k) = true
    · rw [if_pos hp, if_pos (beq_self_eq_true k)]
    · rw [if_neg hp, if_neg hp]
  have hpf : ∀ p : String × α,
      ((if p.1 == k then (k, v) else p).1 == k) = (p.1 == k) := by
    intro p
    by_cases hp : (p.1 == k) = true
    · rw [if_pos hp, hp]
      exact beq_self_eq_true k
    · rw [if_neg hp]
  unfold mapSet
  by_cases h : m.any (fun p => p.1 == k) = true
  · rw [if_pos h]
    have hany : (m.map (fun p => if p.1 == k then (k, v) else p)).any
        (fun p => p.1 == k) = true := by
      rw [List.any_map]
      have : ((fun p : String × α => p.1 == k) ∘
          (fun p => if p.1 == k then (k, v) else p)) = (fun p => p.1 == k) :=
        funext hpf
      rw [this]
      exact h
    rw [if_pos hany, List.map_map]
    exact List.map_congr_left (fun p _ => hff p)
  · rw [if_neg h]
    have hany : ((m ++ [(k, v)]).any (fun p => p.1 == k)) = true := by
      rw [List.any_append]
      simp
    rw [if_pos hany, List.map_append]
    have hall := List.any_eq_false.mp (Bool.eq_false_iff.mpr h)
    have hm : m.map (fun p => if p.1 == k then (k, v) else p) = m := by
      calc m.map (fun p => if p.1 == k then (k, v) else p)
          = m.map id := List.map_congr_left (fun p hp => if_neg (hall p hp))
        _ = m := List.map_id m
    rw [hm, List.map_cons, List.map_nil, hkv]

theorem mapGet_mapDelete_self {α : Type} (m : List (String × α)) (k : String) :
    mapGet (mapDelete m k) k = none := by
  unfold mapGet mapDelete
  rw [List.find?_eq_none.mpr]
  · rfl
  · intro p hp
    have := List.of_mem_filter hp
    simpa [bne] using this

theorem mapDelete_of_mapGet_none {α : Type} (m : List (String × α)) (k : String)
    (h : mapGet m k = none) : mapDelete m k = m := by
  unfold mapGet at h
  unfold mapDelete
  have hf : m.find? (fun p => p.1 == k) = none := by
    cases hx : m.find? (fun p => p.1 == k) with
    | none => rfl
    | some p => rw [hx] at h; simp at h
  have := List.find?_eq_none.mp hf
  apply List.filter_eq_self.mpr
  intro p hp
  have hne := this p hp
  simpa [bne] using hne

/-! ## `List.find?` decomposition -/

theorem find?_eq_some_split {α : Type} {p : α → Bool} {l : List α} {a : α}
    (h : l.find? p = some a) :
    ∃ pre post, l = pre ++ a :: post ∧ ∀ x ∈ pre, p x = false := by
  induction l with
  | nil => simp at h
  | cons b rest ih =>
    by_cases hb : p b = true
    · rw [List.find?_cons_of_pos _ hb] at h
      cases h
      exact ⟨[], rest, rfl, by simp⟩
    · rw [List.find?_cons_of_neg _ hb] at h
      obtain ⟨pre, post, heq, hpre⟩ := ih h
      refine ⟨b :: pre, post, by simp [heq], ?_⟩
      intro x hx
      rcases List.mem_cons.mp hx with rfl | hx
      · exact Bool.eq_false_iff.mpr hb
      · exact hpre x hx

/-! ## `updateTask` and `getNextTask` lemmas -/

theorem find?_updateTask (tasks : List Task) (taskId : Nat) (f : Task → Task)
    (hf : ∀ t, (f t).id = t.id) :
    (updateTask tasks taskId f).find? (fun t => t.id == taskId) =
      (tasks.find? (fun t => t.id == taskId)).map f := by
  induction tasks with
  | nil => rfl
  | cons t rest ih =>
    by_cases ht : t.id = taskId
    · rw [updateTask, if_pos ht,
        @List.find?_cons_of_pos _ (fun u => u.id == taskId) (f t) _
          (show ((f t).id == taskId) = true by rw [hf t]; exact beq_iff_eq.mpr ht),
        @List.find?_cons_of_pos _ (fun u => u.id == taskId) t _ (beq_iff_eq.mpr ht)]
      rfl
    · rw [updateTask, if_neg ht,
        @List.find?_cons_of_neg _ (fun u => u.id == taskId) t _ (by simpa using ht),
        @List.find?_cons_of_neg _ (fun u => u.id == taskId) t _ (by simpa using ht)]
      exact ih

theorem updateTask_of_find?_none (tasks : List Task) (taskId : Nat) (f : Task → Task)
    (h : tasks.find? (fun t => t.id == taskId) = none) :
    updateTask tasks taskId f = tasks := by
  induction tasks with
  | nil => rfl
  | cons t rest ih =>
    have hall := List.find?_eq_none.mp h
    have ht : ¬t.id = taskId := by
      have := hall t (List.mem_cons_self t rest)
      simpa using this
    rw [updateTask, if_neg ht]
    refine congrArg _ (ih ?_)
    apply List.find?_eq_none.mpr
    intro u hu
    exact hall u (List.mem_cons_of_mem t hu)

theorem depCompleted_iff (tasks : List Task) (depId : Nat) :
    depCompleted tasks depId = true ↔
      ∃ dt, tasks.find? (fun t => t.id == depId) = some dt ∧ dt.status = .completed := by
  unfold depCompleted
  cases hx : tasks.find? (fun t => t.id == depId) with
  | none => simp
  | some dt =>
    simp only [beq_iff_eq]
    constructor
    · intro h
      exact ⟨dt, rfl, by simpa using h⟩
    · rintro ⟨dt', hdt', hst⟩
      cases hdt'
      exact hst

/-! ## Retry-loop lemmas -/

theorem callToolLoop_skip (outcome : Nat → AttemptResult) (toolName : String)
    (maxRetries retryDelayMs : Nat) :
    ∀ (k a fuel : Nat), 1 ≤ a → a + k ≤ maxRetries → k ≤ fuel →
    (∀ i, a ≤ i → i < a + k → ∃ mi, outcome i = .err mi ∧ isRetryableMsg mi = true) →
    callToolLoop outcome toolName maxRetries retryDelayMs fuel a =
      { result := (callToolLoop outcome toolName maxRetries retryDelayMs (fuel - k) (a + k)).result
        attemptsMade := (callToolLoop outcome toolName maxRetries retryDelayMs (fuel - k) (a + k)).attemptsMade
        delays := ((List.range' (a - 1) k).map fun i => retryDelayMs * 2 ^ i) ++
          (callToolLoop outcome toolName maxRetries retryDelayMs (fuel - k) (a + k)).delays } := by
  intro k
  induction k with
  | zero =>
    intro a fuel _ _ _ _
    simp
  | succ k ih =>
    intro a fuel ha hbound hfuel hfail
    obtain ⟨fuel', rfl⟩ : ∃ f, fuel = f + 1 :=
      ⟨fuel - 1, by omega⟩
    obtain ⟨m, hm, hretry⟩ := hfail a (le_refl a) (by omega)
    have halt : a < maxRetries := by omega
    have h1 : 1 ≤ a + 1 := by omega
    have h2 : a + 1 + k ≤ maxRetries := by omega
    have h3 : k ≤ fuel' := by omega
    have hrec := ih (a + 1) fuel' h1 h2 h3
      (fun i hi1 hi2 => hfail i (by omega) (by omega))
    have hrange : List.range' (a - 1) (k + 1) = (a - 1) :: List.range' a k := by
      rw [List.range'_succ]
      have hsub : a - 1 + 1 = a := by omega
      rw [hsub]
    have harith : a + 1 + k = a + (k + 1) := by omega
    have hfuel' : fuel' - k = fuel' + 1 - (k + 1) := by omega
    simp only [callToolLoop, hm]
    rw [if_pos (by simp [halt, hretry])]
    rw [hrange]
    simp only [List.map_cons, List.cons_append]
    rw [hrec]
    simp only [harith, hfuel', Nat.add_sub_cancel]

/-! ## Search lemmas -/

theorem findSymbolsInTree_eq_filterMap (symbols : List SymbolNode) (searchName : String)
    (filePath : String) (options : SearchOptions) (parentPath : String) :
    findSymbolsInTree symbols searchName filePath options parentPath =
      (preorderPaths parentPath symbols).filterMap (fun q =>
        if nodeMatches searchName options q.1 then
          some { name := q.1.name, kind := q.1.kind, children := q.1.children
                 filePath := filePath, namePath := q.2 }
        else none) := by
  induction symbols, searchName, filePath, options, parentPath using findSymbolsInTree.induct with
  | case1 searchName filePath options parentPath =>
    simp [findSymbolsInTree, preorderPaths]
  | case2 name kind children rest searchName filePath options parentPath ihc ihr =>
    simp only [dite_eq_ite] at ihc
    simp only [findSymbolsInTree, preorderPaths, List.filterMap_cons, List.filterMap_append]
    rw [ihc, ihr]
    have hn : nodeMatches searchName options (SymbolNode.node name kind children) =
        ((if options.exactMatch then name.toLower == searchName
          else strIncludes name.toLower searchName) &&
         (options.kind.isNone || options.kind == some kind)) := rfl
    cases hC : ((if options.exactMatch then name.toLower == searchName
          else strIncludes name.toLower searchName) &&
         (options.kind.isNone || options.kind == some kind)) with
    | true => simp [hn, hC, SymbolNode.name, SymbolNode.kind, SymbolNode.children,
        List.append_assoc]
    | false => simp [hn, hC]

theorem preorderPaths_length (symbols : List SymbolNode) (parentPath : String) :
    (preorderPaths parentPath symbols).length = countSymbols symbols := by
  induction parentPath, symbols using preorderPaths.induct with
  | case1 parentPath =>
    simp [preorderPaths, countSymbols]
  | case2 parentPath name kind children rest ihc ihr =>
    simp only [dite_eq_ite] at ihc
    simp only [preorderPaths, countSymbols, List.length_cons, List.length_append]
    rw [ihc, ihr]
    omega

theorem strIncludes_empty (s : String) : strIncludes s "" = true := by
  unfold strIncludes
  apply List.any_eq_true.mpr
  refine ⟨[], ?_, ?_⟩
  · exact (List.mem_tails _ _).mpr List.nil_suffix
  · simp [List.isPrefixOf]

theorem nodeMatches_empty_query (s : SymbolNode) :
    nodeMatches "" { kind := none, exactMatch := false } s = true := by
  unfold nodeMatches
  simp [strIncludes_empty]

/-- The `getSymbols` lookup contract, characterized: a payload comes
back exactly when the key is cached and the stored fingerprint equals
the fingerprint freshly computed from the live source. -/
theorem getSymbols_eq_some_iff (md5 : String → String) (fs : String → Option String)
    (st : SymbolIndexState) (filePath projectPath : String) (p : SymbolData) :
    getSymbols md5 fs st filePath projectPath = some p ↔
      (mapGet st.cache filePath = some p ∧
       calculateFileHash md5 fs (pathJoin projectPath filePath) = p.hash) := by
  cases hx : mapGet st.cache filePath with
  | none =>
    unfold getSymbols
    rw [hx]
    simp
  | some cached =>
    have hred : getSymbols md5 fs st filePath projectPath =
        if (calculateFileHash md5 fs (pathJoin projectPath filePath) != cached.hash) = true
        then none else some cached := by
      unfold getSymbols hasFileChanged
      rw [hx]
    rw [hred]
    by_cases hh : calculateFileHash md5 fs (pathJoin projectPath filePath) = cached.hash
    · rw [if_neg (by simp [hh])]
      constructor
      · rintro h
        cases h
        exact ⟨rfl, hh⟩
      · rintro ⟨h1, _⟩
        cases h1
        rfl
    · rw [if_pos (by simpa using hh)]
      constructor
      · intro h
        cases h
      · rintro ⟨h1, h2⟩
        cases h1
        exact absurd h2 hh

theorem length_filterMap_some {α β : Type} (l : List α) (g : α → β) :
    (l.filterMap (fun x => some (g x))).length = l.length := by
  induction l with
  | nil => rfl
  | cons x rest ih => simp [List.filterMap_cons, ih]

/-- `String.toLower` on the empty string, evaluated by unfolding the
byte-position recursion of `String.mapAux` (which is compiled by
well-founded recursion and so does not reduce definitionally). -/
theorem toLower_empty : ("" : String).toLower = "" := by
  rw [String.toLower, String.map, String.mapAux]
  rfl

/-! ## Claims -/

/-- C9: with an empty task list — at construction, or immediately after
`reset()` — `isComplete()` returns `true`: an empty plan is reported as
complete. -/
theorem C9_empty_plan_is_complete :
    isComplete taskManagerInit = true ∧
    ∀ st : TaskManagerState, isComplete (reset st) = true :=
  ⟨rfl, fun _ => rfl⟩

/-- C10: searching with the empty query under default options (no kind
filter, `exactMatch = false`) matches every symbol node of every cached
entry: the result list has exactly one match per node. -/
theorem C10_empty_query_matches_every_node (st : SymbolIndexState) :
    (searchSymbols st "" { kind := none, exactMatch := false }).length =
      (st.cache.map (fun p => countSymbols p.2.symbols)).sum := by
  unfold searchSymbols
  rw [List.length_flatten, List.map_map]
  refine congrArg List.sum (List.map_congr_left ?_)
  intro p _
  show (findSymbolsInTree p.2.symbols ("".toLower) p.1
    { kind := none, exactMatch := false } "").length = countSymbols p.2.symbols
  rw [toLower_empty, findSymbolsInTree_eq_filterMap]
  have hf : (fun q : SymbolNode × String =>
      if nodeMatches "" { kind := none, exactMatch := false } q.1 then
        some { name := q.1.name, kind := q.1.kind, children := q.1.children
               filePath := p.1, namePath := q.2 }
      else none) =
      (fun q : SymbolNode × String =>
        some ({ name := q.1.name, kind := q.1.kind, children := q.1.children
                filePath := p.1, namePath := q.2 } : SymbolMatch)) := by
    funext q
    rw [if_pos (nodeMatches_empty_query q.1)]
  rw [hf, length_filterMap_some, preorderPaths_length]

/-- C2: `getSymbols` returns the stored payload exactly when an entry
exists for the key and its stored fingerprint equals the fingerprint
freshly computed from the live source; any mismatch or missing entry
yields `none`.  Round trip: after `indexFile(key, payload)`, a lookup
while the fingerprint is unchanged returns the registered payload
verbatim (child order preserved); once the live fingerprint differs
from the registered one, the lookup yields `none`, never the old
payload. -/
theorem C2_lookup_roundtrip_invalidation (md5 : String → String)
    (fs fs2 : String → Option String) (st : SymbolIndexState)
    (key projectPath : String) (payload : List SymbolNode) (now : Nat) :
    (∀ p, getSymbols md5 fs st key projectPath = some p ↔
       (mapGet st.cache key = some p ∧
        calculateFileHash md5 fs (pathJoin projectPath key) = p.hash))
    ∧ (calculateFileHash md5 fs2 (pathJoin projectPath key) =
         calculateFileHash md5 fs (pathJoin projectPath key) →
       getSymbols md5 fs2 (indexFile md5 fs st key payload projectPath now).1 key projectPath =
         some { filePath := key
                hash := calculateFileHash md5 fs (pathJoin projectPath key)
                symbols := payload, indexedAt := now
                symbolCount := countSymbols payload })
    ∧ (calculateFileHash md5 fs2 (pathJoin projectPath key) ≠
         calculateFileHash md5 fs (pathJoin projectPath key) →
       getSymbols md5 fs2 (indexFile md5 fs st key payload projectPath now).1 key projectPath =
         none) := by
  refine ⟨fun p => getSymbols_eq_some_iff md5 fs st key projectPath p, ?_, ?_⟩
  · intro hsame
    apply (getSymbols_eq_some_iff md5 fs2 _ key projectPath _).mpr
    constructor
    · exact mapGet_mapSet_self st.cache key _
    · exact hsame
  · intro hdiff
    cases hres : getSymbols md5 fs2 (indexFile md5 fs st key payload projectPath now).1
        key projectPath with
    | none => rfl
    | some p =>
      exfalso
      have h := (getSymbols_eq_some_iff md5 fs2 _ key projectPath p).mp hres
      have hcache : mapGet (indexFile md5 fs st key payload projectPath now).1.cache key =
          some { filePath := key
                 hash := calculateFileHash md5 fs (pathJoin projectPath key)
                 symbols := payload, indexedAt := now
                 symbolCount := countSymbols payload } :=
        mapGet_mapSet_self st.cache key _
      have hp := Option.some.inj (h.1.symm.trans hcache)
      apply hdiff
      rw [h.2, hp]

/-- C2 witness: the round-trip conjunct at a concrete state: register a
one-node payload for `a.js`, look it up with the file unchanged, and get
the payload back. -/
theorem C2_witness :
    getSymbols id (fun _ => some "src")
      (indexFile id (fun _ => some "src") symbolIndexInit "a.js"
        [SymbolNode.node "A" "class" []] "proj" 0).1 "a.js" "proj" =
      some { filePath := "a.js", hash := some "src"
             symbols := [SymbolNode.node "A" "class" []], indexedAt := 0
             symbolCount := 1 } := by
  have h := (C2_lookup_roundtrip_invalidation id (fun _ => some "src") (fun _ => some "src")
    symbolIndexInit "a.js" "proj" [SymbolNode.node "A" "class" []] 0).2.1 rfl
  simpa [calculateFileHash, countSymbols, pathJoin] using h

/-- C1 counterexample: with the source unreadable (`fs` returns `none`
everywhere), `indexFile` *does* store an entry — with `hash = none` —
and a subsequent `getSymbols` while the source is still unreadable
returns that cached payload: an unreadable source produces a cache hit,
and no distinguished "fingerprint unavailable" outcome exists (the
`null` return is an ordinary miss). -/
theorem C1_counterexample :
    mapGet ((indexFile id (fun _ => none) symbolIndexInit "a.js"
        [SymbolNode.node "A" "class" []] "proj" 0).1).cache "a.js" =
      some { filePath := "a.js", hash := none
             symbols := [SymbolNode.node "A" "class" []]
             indexedAt := 0, symbolCount := 1 } ∧
    getSymbols id (fun _ => none)
      (indexFile id (fun _ => none) symbolIndexInit "a.js"
        [SymbolNode.node "A" "class" []] "proj" 0).1 "a.js" "proj" =
      some { filePath := "a.js", hash := none
             symbols := [SymbolNode.node "A" "class" []]
             indexedAt := 0, symbolCount := 1 } := by
  constructor
  · simp [indexFile, symbolIndexInit, calculateFileHash, mapSet, mapGet,
      countSymbols, pathJoin]
  · simp [getSymbols, indexFile, symbolIndexInit, calculateFileHash, hasFileChanged,
      mapSet, mapGet, countSymbols, pathJoin]

/-- C1 (amended): when fingerprint computation fails (source
unreadable), `calculateFileHash` yields `null` rather than a
distinguished error value.  `indexFile` still stores an entry for that
round, with `hash = none`; `getSymbols` on an entry whose stored hash is
non-null returns `none` — an ordinary miss, indistinguishable from
"never indexed" — but on an entry that was itself registered while
unreadable (stored hash `none`) it returns the cached payload, so an
unreadable source can produce a cache hit. -/
theorem C1_amended (md5 : String → String) (fs : String → Option String)
    (st : SymbolIndexState) (filePath projectPath : String)
    (symbols : List SymbolNode) (now : Nat)
    (hunread : fs (pathJoin projectPath filePath) = none) :
    ((indexFile md5 fs st filePath symbols projectPath now).2.hash = none ∧
     mapGet (indexFile md5 fs st filePath symbols projectPath now).1.cache filePath =
       some (indexFile md5 fs st filePath symbols projectPath now).2) ∧
    (∀ cached, mapGet st.cache filePath = some cached →
      getSymbols md5 fs st filePath projectPath =
        if cached.hash = none then some cached else none) := by
  refine ⟨⟨?_, ?_⟩, ?_⟩
  · show calculateFileHash md5 fs (pathJoin projectPath filePath) = none
    unfold calculateFileHash
    rw [hunread]
    rfl
  · exact mapGet_mapSet_self st.cache filePath _
  · intro cached hc
    have hred : getSymbols md5 fs st filePath projectPath =
        if (calculateFileHash md5 fs (pathJoin projectPath filePath) != cached.hash) = true
        then none else some cached := by
      unfold getSymbols hasFileChanged
      rw [hc]
    have hnone : calculateFileHash md5 fs (pathJoin projectPath filePath) = none := by
      unfold calculateFileHash
      rw [hunread]
      rfl
    rw [hred, hnone]
    cases hch : cached.hash with
    | none => simp
    | some h => simp

/-- C1 witness: the amended statement applied with a concretely
unreadable file system: the record registered for `a.js` carries
`hash = none`, and a lookup against a state caching that record returns
it — the cache hit of the counterexample, derived from the amended
theorem. -/
theorem C1_amended_witness :
    (indexFile id (fun _ => none) symbolIndexInit "a.js"
      [SymbolNode.node "A" "class" []] "proj" 0).2.hash = none ∧
    getSymbols id (fun _ => none)
      { symbolIndexInit with cache := [("a.js",
          { filePath := "a.js", hash := none
            symbols := [SymbolNode.node "A" "class" []]
            indexedAt := 0, symbolCount := 1 })] } "a.js" "proj" =
      some { filePath := "a.js", hash := none
             symbols := [SymbolNode.node "A" "class" []]
             indexedAt := 0, symbolCount := 1 } := by
  constructor
  · exact (C1_amended id (fun _ => none) symbolIndexInit "a.js" "proj"
      [SymbolNode.node "A" "class" []] 0 rfl).1.1
  · have h := (C1_amended id (fun _ => none)
      { symbolIndexInit with cache := [("a.js",
          { filePath := "a.js", hash := none
            symbols := [SymbolNode.node "A" "class" []]
            indexedAt := 0, symbolCount := 1 })] } "a.js" "proj"
      [SymbolNode.node "A" "class" []] 0 rfl).2
      { filePath := "a.js", hash := none
        symbols := [SymbolNode.node "A" "class" []]
        indexedAt := 0, symbolCount := 1 } (by simp [mapGet, symbolIndexInit])
    simpa using h

/-- C3 counterexample: terminal states are not protected and no
`InvalidTransition` error exists.  Add one task, fail it (terminal
`failed`), then call `completeTask` on it: the status silently becomes
`completed` — a `Failed → Completed` transition the claimed state
machine forbids, performed without any error. -/
theorem C3_counterexample :
    ((failTask (addTask taskManagerInit
        { name := "A", type := none, priority := none, dependencies := none }).1
        1 "boom" 5).tasks.find? (fun t => t.id == 1)).map Task.status =
      some TaskStatus.failed ∧
    ((completeTask (failTask (addTask taskManagerInit
        { name := "A", type := none, priority := none, dependencies := none }).1
        1 "boom" 5) 1 (some "done") 6).tasks.find? (fun t => t.id == 1)).map Task.status =
      some TaskStatus.completed := by
  constructor <;> rfl

/-- C3 (amended): `startTask`, `completeTask`, `failTask` and `skipTask`
set the status of the task with the given id unconditionally — to
`in-progress`, `completed`, `failed`, `skipped` respectively — whatever
the task's current status, terminal or not; no transition is validated
and no error is ever raised; with no task of that id, the task list is
left unchanged. -/
theorem C3_amended (st : TaskManagerState) (taskId : Nat) (result : Option String)
    (errMsg reason : String) (now : Nat) :
    ((startTask st taskId now).tasks.find? (fun t => t.id == taskId) =
      (st.tasks.find? (fun t => t.id == taskId)).map
        (fun t => { t with status := .inProgress, startedAt := some now })) ∧
    ((completeTask st taskId result now).tasks.find? (fun t => t.id == taskId) =
      (st.tasks.find? (fun t => t.id == taskId)).map
        (fun t => { t with status := .completed, completedAt := some now, result := result })) ∧
    ((failTask st taskId errMsg now).tasks.find? (fun t => t.id == taskId) =
      (st.tasks.find? (fun t => t.id == taskId)).map
        (fun t => { t with status := .failed, completedAt := some now, error := some errMsg })) ∧
    ((skipTask st taskId reason now).tasks.find? (fun t => t.id == taskId) =
      (st.tasks.find? (fun t => t.id == taskId)).map
        (fun t => { t with status := .skipped, completedAt := some now, result := some reason })) ∧
    (st.tasks.find? (fun t => t.id == taskId) = none →
      (completeTask st taskId result now).tasks = st.tasks) := by
  refine ⟨?_, ?_, ?_, ?_, ?_⟩
  · exact find?_updateTask st.tasks taskId _ (fun t => rfl)
  · exact find?_updateTask st.tasks taskId _ (fun t => rfl)
  · exact find?_updateTask st.tasks taskId _ (fun t => rfl)
  · exact find?_updateTask st.tasks taskId _ (fun t => rfl)
  · intro hnone
    exact updateTask_of_find?_none st.tasks taskId _ hnone

/-- C3 witness: the amended statement at a concrete one-task state: the
unconditional `Failed → Completed` overwrite of the counterexample, and
the no-op on a missing id, both derived from the amended theorem. -/
theorem C3_amended_witness :
    ((completeTask (failTask (addTask taskManagerInit
        { name := "A", type := none, priority := none, dependencies := none }).1
        1 "boom" 5) 1 (some "done") 6).tasks.find? (fun t => t.id == 1) =
      ((failTask (addTask taskManagerInit
        { name := "A", type := none, priority := none, dependencies := none }).1
        1 "boom" 5).tasks.find? (fun t => t.id == 1)).map
          (fun t => { t with status := .completed, completedAt := some 6, result := some "done" })) ∧
    (completeTask taskManagerInit 7 none 0).tasks = taskManagerInit.tasks :=
  ⟨(C3_amended (failTask (addTask taskManagerInit
      { name := "A", type := none, priority := none, dependencies := none }).1
      1 "boom" 5) 1 (some "done") "e" "r" 6).2.1,
   (C3_amended taskManagerInit 7 none "e" "r" 0).2.2.2.2 rfl⟩

/-- C4 counterexample: registering the same `(key, fingerprint,
payload)` twice does *not* leave `stats()` unchanged: `indexFile` bumps
the `filesIndexed` and `symbolsCount` counters on every call, so the
second identical registration yields `filesIndexed = 2` for a cache of
one file, and `getStats` differs from the single-registration value. -/
theorem C4_counterexample :
    (getStats (indexFile id (fun _ => some "src") symbolIndexInit "a.js"
        [SymbolNode.node "A" "class" []] "proj" 0).1).filesIndexed = 1 ∧
    (getStats (indexFile id (fun _ => some "src")
        (indexFile id (fun _ => some "src") symbolIndexInit "a.js"
          [SymbolNode.node "A" "class" []] "proj" 0).1 "a.js"
        [SymbolNode.node "A" "class" []] "proj" 0).1).filesIndexed = 2 ∧
    getStats (indexFile id (fun _ => some "src")
        (indexFile id (fun _ => some "src") symbolIndexInit "a.js"
          [SymbolNode.node "A" "class" []] "proj" 0).1 "a.js"
        [SymbolNode.node "A" "class" []] "proj" 0).1 ≠
      getStats (indexFile id (fun _ => some "src") symbolIndexInit "a.js"
        [SymbolNode.node "A" "class" []] "proj" 0).1 := by
  refine ⟨rfl, rfl, fun h => ?_⟩
  have := congrArg Stats.filesIndexed h
  simp [getStats, indexFile, symbolIndexInit] at this

/-- C4 (amended): a second `indexFile` with identical arguments leaves
the cache map, hash map and knowledge base — and therefore every
subsequent `getSymbols` result, the `cacheSize` and the per-kind
histogram — identical to a single registration, but it is *not*
idempotent on `stats()`: `filesIndexed` and `symbolsCount` are
incremented again, so the two states' `getStats` always differ. -/
theorem C4_amended (md5 : String → String) (fs : String → Option String)
    (st : SymbolIndexState) (key : String) (payload : List SymbolNode)
    (projectPath : String) (now : Nat) :
    (indexFile md5 fs (indexFile md5 fs st key payload projectPath now).1
        key payload projectPath now).1.cache =
      (indexFile md5 fs st key payload projectPath now).1.cache ∧
    (indexFile md5 fs (indexFile md5 fs st key payload projectPath now).1
        key payload projectPath now).1.fileHashes =
      (indexFile md5 fs st key payload projectPath now).1.fileHashes ∧
    (indexFile md5 fs (indexFile md5 fs st key payload projectPath now).1
        key payload projectPath now).1.kb =
      (indexFile md5 fs st key payload projectPath now).1.kb ∧
    (∀ (fs2 : String → Option String) (k pp : String),
      getSymbols md5 fs2 (indexFile md5 fs (indexFile md5 fs st key payload projectPath now).1
          key payload projectPath now).1 k pp =
        getSymbols md5 fs2 (indexFile md5 fs st key payload projectPath now).1 k pp) ∧
    (indexFile md5 fs (indexFile md5 fs st key payload projectPath now).1
        key payload projectPath now).1.filesIndexed =
      (indexFile md5 fs st key payload projectPath now).1.filesIndexed + 1 ∧
    (getStats (indexFile md5 fs (indexFile md5 fs st key payload projectPath now).1
        key payload projectPath now).1).cacheSize =
      (getStats (indexFile md5 fs st key payload projectPath now).1).cacheSize ∧
    (getStats (indexFile md5 fs (indexFile md5 fs st key payload projectPath now).1
        key payload projectPath now).1).categories =
      (getStats (indexFile md5 fs st key payload projectPath now).1).categories ∧
    getStats (indexFile md5 fs (indexFile md5 fs st key payload projectPath now).1
        key payload projectPath now).1 ≠
      getStats (indexFile md5 fs st key payload projectPath now).1 := by
  have hcache : (indexFile md5 fs (indexFile md5 fs st key payload projectPath now).1
      key payload projectPath now).1.cache =
      (indexFile md5 fs st key payload projectPath now).1.cache :=
    mapSet_mapSet_self st.cache key _
  have hhashes : (indexFile md5 fs (indexFile md5 fs st key payload projectPath now).1
      key payload projectPath now).1.fileHashes =
      (indexFile md5 fs st key payload projectPath now).1.fileHashes :=
    mapSet_mapSet_self st.fileHashes key _
  have hkb : (indexFile md5 fs (indexFile md5 fs st key payload projectPath now).1
      key payload projectPath now).1.kb =
      (indexFile md5 fs st key payload projectPath now).1.kb :=
    mapSet_mapSet_self st.kb (getMemoryName key) _
  refine ⟨hcache, hhashes, hkb, ?_, rfl, ?_, ?_, ?_⟩
  · intro fs2 k pp
    unfold getSymbols
    rw [hcache]
  · show (indexFile md5 fs (indexFile md5 fs st key payload projectPath now).1
        key payload projectPath now).1.cache.length =
      (indexFile md5 fs st key payload projectPath now).1.cache.length
    rw [hcache]
  · show getCategoryStats _ = getCategoryStats _
    unfold getCategoryStats
    rw [hcache]
  · intro h
    have := congrArg Stats.filesIndexed h
    simp [getStats, indexFile] at this

/-- C4 witness: the amended statement at a concrete double
registration: the second identical `indexFile` leaves the cache map
unchanged but increments `filesIndexed` again. -/
theorem C4_amended_witness :
    (indexFile id (fun _ => some "src")
      (indexFile id (fun _ => some "src") symbolIndexInit "a.js"
        [SymbolNode.node "A" "class" []] "proj" 0).1 "a.js"
      [SymbolNode.node "A" "class" []] "proj" 0).1.cache =
    (indexFile id (fun _ => some "src") symbolIndexInit "a.js"
      [SymbolNode.node "A" "class" []] "proj" 0).1.cache ∧
    (indexFile id (fun _ => some "src")
      (indexFile id (fun _ => some "src") symbolIndexInit "a.js"
        [SymbolNode.node "A" "class" []] "proj" 0).1 "a.js"
      [SymbolNode.node "A" "class" []] "proj" 0).1.filesIndexed =
    (indexFile id (fun _ => some "src") symbolIndexInit "a.js"
      [SymbolNode.node "A" "class" []] "proj" 0).1.filesIndexed + 1 :=
  ⟨(C4_amended id (fun _ => some "src") symbolIndexInit "a.js"
      [SymbolNode.node "A" "class" []] "proj" 0).1,
   (C4_amended id (fun _ => some "src") symbolIndexInit "a.js"
      [SymbolNode.node "A" "class" []] "proj" 0).2.2.2.2.1⟩

/-- C5: `getNextTask` returns only a pending task all of whose
dependency ids resolve (by first-match id lookup) to completed tasks; a
dependency that resolves to a failed or skipped task is never satisfied;
the returned task is the *first* such task in insertion order; and
`getNextTask` returns `none` exactly when no pending task has all
dependencies completed.  For the concrete plan `[A, B (dep A), C (dep
A)]` it first returns `A`, and after `A` completes it returns `B`
(insertion order) before `C`. -/
theorem C5_next_runnable (st : TaskManagerState) :
    (∀ t, getNextTask st = some t →
       t ∈ st.tasks ∧ t.status = .pending ∧
       (∀ d ∈ t.dependencies, ∃ dt, st.tasks.find? (fun u => u.id == d) = some dt ∧
          dt.status = .completed)) ∧
    (∀ t, getNextTask st = some t →
       ∀ d ∈ t.dependencies, ∀ dt, st.tasks.find? (fun u => u.id == d) = some dt →
         dt.status ≠ .failed ∧ dt.status ≠ .skipped) ∧
    (∀ t, getNextTask st = some t →
       ∃ pre post, st.tasks = pre ++ t :: post ∧
         ∀ u ∈ pre, ¬(u.status = .pending ∧
           u.dependencies.all (depCompleted st.tasks) = true)) ∧
    (getNextTask st = none ↔
       ∀ t ∈ st.tasks, t.status = .pending →
         t.dependencies.all (depCompleted st.tasks) = false) ∧
    ((getNextTask (createPlan taskManagerInit "plan"
        [{ name := "A", type := none, priority := none, dependencies := none },
         { name := "B", type := none, priority := none, dependencies := some [1] },
         { name := "C", type := none, priority := none, dependencies := some [1] }]
        0).1).map Task.name = some "A" ∧
     (getNextTask (completeTask (createPlan taskManagerInit "plan"
        [{ name := "A", type := none, priority := none, dependencies := none },
         { name := "B", type := none, priority := none, dependencies := some [1] },
         { name := "C", type := none, priority := none, dependencies := some [1] }]
        0).1 1 none 1)).map Task.name = some "B") := by
  have hchar : ∀ t, getNextTask st = some t →
      t ∈ st.tasks ∧ t.status = .pending ∧
      (∀ d ∈ t.dependencies, ∃ dt, st.tasks.find? (fun u => u.id == d) = some dt ∧
         dt.status = .completed) := by
    intro t h
    have hmem := List.mem_of_find?_eq_some h
    have hp := List.find?_some h
    simp only [Bool.and_eq_true, beq_iff_eq, List.all_eq_true] at hp
    exact ⟨hmem, hp.1, fun d hd => (depCompleted_iff st.tasks d).mp (hp.2 d hd)⟩
  refine ⟨hchar, ?_, ?_, ?_, ?_, ?_⟩
  · intro t h d hd dt hdt
    obtain ⟨dt', hdt', hst⟩ := (hchar t h).2.2 d hd
    rw [hdt] at hdt'
    cases Option.some.inj hdt'
    rw [hst]
    exact ⟨by decide, by decide⟩
  · intro t h
    obtain ⟨pre, post, heq, hpre⟩ := find?_eq_some_split h
    refine ⟨pre, post, heq, fun u hu => ?_⟩
    rintro ⟨h1, h2⟩
    have := hpre u hu
    simp [h1, h2] at this
  · unfold getNextTask
    rw [List.find?_eq_none]
    constructor
    · intro hall t ht hpending
      have := hall t ht
      simp only [Bool.and_eq_true, beq_iff_eq, not_and] at this
      exact Bool.not_eq_true _ ▸ (this hpending)
    · intro hall t ht
      simp only [Bool.and_eq_true, beq_iff_eq, not_and]
      intro hpending
      rw [hall t ht hpending]
      simp
  · decide
  · decide

/-- C5 witness: the none-direction of the characterization at a
concretely stalled plan: after `A` fails, neither `B` nor `C` (both
depending on `A`) is runnable, so `getNextTask` returns `none`. -/
theorem C5_witness :
    getNextTask (failTask (createPlan taskManagerInit "plan"
      [{ name := "A", type := none, priority := none, dependencies := none },
       { name := "B", type := none, priority := none, dependencies := some [1] },
       { name := "C", type := none, priority := none, dependencies := some [1] }]
      0).1 1 "boom" 1) = none :=
  ((C5_next_runnable _).2.2.2.1).mpr (by decide)

/-- C6: the attempt counter of `callTool` starts at 1 (success on the
first attempt returns after exactly one attempt with no delay); a
non-retryable error on attempt `n < maxRetries` propagates immediately
— unwrapped, with no further attempts — carrying only the `n - 1`
earlier backoff delays, the `i`-th being `retryDelayMs * 2^(i-1)`; and
when all `maxRetries` attempts fail retryably, a wrapped error carrying
the attempt count and the last underlying cause is raised after exactly
`maxRetries` attempts, with backoff delays
`retryDelayMs * 2^(i-1)` for `i = 1 .. maxRetries - 1`. -/
theorem C6_retry_backoff_exhaustion (outcome : Nat → AttemptResult)
    (toolName : String) (maxRetries retryDelayMs n : Nat) :
    (∀ r, outcome 1 = .ok r → 1 ≤ maxRetries →
       callTool outcome toolName maxRetries retryDelayMs =
         { result := .ok r, attemptsMade := 1, delays := [] }) ∧
    (∀ m, (∀ i, 1 ≤ i → i < n → ∃ mi, outcome i = .err mi ∧ isRetryableMsg mi = true) →
       outcome n = .err m → isRetryableMsg m = false → 1 ≤ n → n < maxRetries →
       callTool outcome toolName maxRetries retryDelayMs =
         { result := .error (.plain m), attemptsMade := n
           delays := (List.range (n - 1)).map fun i => retryDelayMs * 2 ^ i }) ∧
    (1 ≤ maxRetries →
     (∀ i, 1 ≤ i → i ≤ maxRetries → ∃ mi, outcome i = .err mi ∧ isRetryableMsg mi = true) →
     ∃ m, outcome maxRetries = .err m ∧
       callTool outcome toolName maxRetries retryDelayMs =
         { result := .error (.wrapped toolName maxRetries m), attemptsMade := maxRetries
           delays := (List.range (maxRetries - 1)).map fun i => retryDelayMs * 2 ^ i }) := by
  refine ⟨?_, ?_, ?_⟩
  · intro r hok hm
    obtain ⟨f, rfl⟩ : ∃ f, maxRetries = f + 1 := ⟨maxRetries - 1, by omega⟩
    unfold callTool
    simp [callToolLoop, hok]
  · intro m hpre hn hnr h1 hlt
    have hskip := callToolLoop_skip outcome toolName maxRetries retryDelayMs
      (n - 1) 1 maxRetries (by omega) (by omega) (by omega)
      (fun i hi1 hi2 => hpre i hi1 (by omega))
    have h1n : 1 + (n - 1) = n := by omega
    rw [h1n] at hskip
    unfold callTool
    rw [hskip]
    obtain ⟨g, hg⟩ : ∃ g, maxRetries - (n - 1) = g + 1 := ⟨maxRetries - n, by omega⟩
    rw [hg]
    simp only [callToolLoop, hn]
    rw [if_neg (by simp [hnr]), if_neg (by omega)]
    rw [List.range_eq_range']
    simp
  · intro hm hall
    obtain ⟨m, hml, hretry⟩ := hall maxRetries (by omega) (le_refl _)
    refine ⟨m, hml, ?_⟩
    have hskip := callToolLoop_skip outcome toolName maxRetries retryDelayMs
      (maxRetries - 1) 1 maxRetries (by omega) (by omega) (by omega)
      (fun i hi1 hi2 => hall i hi1 (by omega))
    have h1n : 1 + (maxRetries - 1) = maxRetries := by omega
    rw [h1n] at hskip
    unfold callTool
    rw [hskip]
    have hg : maxRetries - (maxRetries - 1) = 0 + 1 := by omega
    rw [hg]
    simp only [callToolLoop, hml]
    rw [if_neg (by simp), if_pos (le_refl maxRetries)]
    rw [List.range_eq_range']
    simp

/-- C6 witness: three consecutive retryable (`ETIMEDOUT`) failures with
`maxRetries = 3`, `retryDelayMs = 100`: the wrapped error carrying the
attempt count 3 and the last cause is raised after exactly 3 attempts,
with backoff delays 100 ms and 200 ms. -/
theorem C6_witness :
    callTool (fun _ => .err "ETIMEDOUT") "find_symbol" 3 100 =
      { result := .error (.wrapped "find_symbol" 3 "ETIMEDOUT"), attemptsMade := 3
        delays := [100, 200] } := by
  obtain ⟨m, hm, hc⟩ := (C6_retry_backoff_exhaustion (fun _ => .err "ETIMEDOUT")
    "find_symbol" 3 100 0).2.2 (by omega)
    (fun i hi1 hi2 => ⟨"ETIMEDOUT", rfl, by decide⟩)
  have hme : m = "ETIMEDOUT" := by
    have h' : AttemptResult.err "ETIMEDOUT" = AttemptResult.err m := hm
    cases h'
    rfl
  rw [hme] at hc
  rw [hc]
  norm_num [List.range_succ]

/-- C7 counterexample: `invalidate` on a key with *no* entry is not a
no-op: with one file indexed (`filesIndexed = 1`), invalidating the
absent key `b.js` still decrements `filesIndexed` to 0, so `stats()`
changes. -/
theorem C7_counterexample :
    mapGet sampleIndexState.cache "b.js" = none ∧
    getStats (invalidate sampleIndexState "b.js") ≠ getStats sampleIndexState := by
  constructor
  · simp [mapGet, sampleIndexState]
  · intro h
    have := congrArg Stats.filesIndexed h
    simp [getStats, invalidate, sampleIndexState] at this

/-- C7 (amended): `invalidate(key)` removes the key's entry from the
memory cache, the file-hash map and the knowledge base, and leaves no
entry behind; it decrements `filesIndexed` (clamped at 0) but does
*not* decrement `symbolsCount`; when no entry exists the maps are
unchanged, yet `filesIndexed` is still decremented, so whenever
`filesIndexed` was positive the reported stats change — absent keys are
not a no-op. -/
theorem C7_amended (st : SymbolIndexState) (key : String) :
    mapGet (invalidate st key).cache key = none ∧
    mapGet (invalidate st key).fileHashes key = none ∧
    mapGet (invalidate st key).kb (getMemoryName key) = none ∧
    (invalidate st key).filesIndexed = st.filesIndexed - 1 ∧
    (invalidate st key).symbolsCount = st.symbolsCount ∧
    (mapGet st.cache key = none → (invalidate st key).cache = st.cache) ∧
    (mapGet st.fileHashes key = none → (invalidate st key).fileHashes = st.fileHashes) ∧
    (mapGet st.kb (getMemoryName key) = none → (invalidate st key).kb = st.kb) ∧
    (0 < st.filesIndexed →
      (getStats (invalidate st key)).filesIndexed ≠ (getStats st).filesIndexed) := by
  refine ⟨mapGet_mapDelete_self st.cache key,
    mapGet_mapDelete_self st.fileHashes key,
    mapGet_mapDelete_self st.kb (getMemoryName key),
    rfl, rfl,
    fun h => mapDelete_of_mapGet_none st.cache key h,
    fun h => mapDelete_of_mapGet_none st.fileHashes key h,
    fun h => mapDelete_of_mapGet_none st.kb (getMemoryName key) h,
    ?_⟩
  intro hpos hne
  simp only [getStats, invalidate] at hne
  omega

/-- C7 witness: the amended statement at the counterexample state:
invalidating the absent key `b.js` leaves the cache map unchanged but
still changes the reported `filesIndexed`. -/
theorem C7_amended_witness :
    (invalidate sampleIndexState "b.js").cache = sampleIndexState.cache ∧
    (getStats (invalidate sampleIndexState "b.js")).filesIndexed ≠
      (getStats sampleIndexState).filesIndexed := by
  constructor
  · exact (C7_amended sampleIndexState "b.js").2.2.2.2.2.1 (by simp [mapGet, sampleIndexState])
  · exact (C7_amended sampleIndexState "b.js").2.2.2.2.2.2.2.2 (by decide)

/-- `"A".toLower`, evaluated by unfolding the two recursion steps of
`String.mapAux`. -/
theorem toLower_A : ("A" : String).toLower = "a" := by
  rw [String.toLower, String.map, String.mapAux]
  rw [dif_neg (by decide)]
  show String.mapAux Char.toLower
    ((("A" : String).set 0 (Char.toLower (("A" : String).get 0))).next 0)
    (("A" : String).set 0 (Char.toLower (("A" : String).get 0))) = "a"
  rw [String.mapAux, dif_pos (by decide)]
  decide

/-- `"B".toLower`. -/
theorem toLower_B : ("B" : String).toLower = "b" := by
  rw [String.toLower, String.map, String.mapAux]
  rw [dif_neg (by decide)]
  show String.mapAux Char.toLower
    ((("B" : String).set 0 (Char.toLower (("B" : String).get 0))).next 0)
    (("B" : String).set 0 (Char.toLower (("B" : String).get 0))) = "b"
  rw [String.mapAux, dif_pos (by decide)]
  decide

/-- `"C".toLower`. -/
theorem toLower_C : ("C" : String).toLower = "c" := by
  rw [String.toLower, String.map, String.mapAux]
  rw [dif_neg (by decide)]
  show String.mapAux Char.toLower
    ((("C" : String).set 0 (Char.toLower (("C" : String).get 0))).next 0)
    (("C" : String).set 0 (Char.toLower (("C" : String).get 0))) = "c"
  rw [String.mapAux, dif_pos (by decide)]
  decide

/-- `"b".toLower` (already lowercase). -/
theorem toLower_b : ("b" : String).toLower = "b" := by
  rw [String.toLower, String.map, String.mapAux]
  rw [dif_neg (by decide)]
  show String.mapAux Char.toLower
    ((("b" : String).set 0 (Char.toLower (("b" : String).get 0))).next 0)
    (("b" : String).set 0 (Char.toLower (("b" : String).get 0))) = "b"
  rw [String.mapAux, dif_pos (by decide)]
  decide

/-- C8: the search walk, characterized: `findSymbolsInTree` returns
exactly the pre-order enumeration of the forest (each node tested
before its children, within one file in tree document order), filtered
by the match predicate — lowercased name equal to (`exactMatch`) or
containing (default) the lowercased query, and kind equal to the filter
when one is set — each match carrying the qualified path built by
joining ancestor names with `/`, the root level unprefixed, and the
node's original casing.  `searchSymbols` applies this per cache entry
after lowercasing the query once.  Concretely, on nested `A > B > C`,
substring search `"B"` and exact search `"b"` both return the single
match named `"B"` (original casing) with qualified path `"A/B"`. -/
theorem C8_search_pre_order_paths (st : SymbolIndexState) (q : String)
    (options : SearchOptions) (symbols : List SymbolNode)
    (searchName filePath parentPath : String) :
    (findSymbolsInTree symbols searchName filePath options parentPath =
      (preorderPaths parentPath symbols).filterMap (fun n =>
        if nodeMatches searchName options n.1 then
          some { name := n.1.name, kind := n.1.kind, children := n.1.children
                 filePath := filePath, namePath := n.2 }
        else none)) ∧
    (searchSymbols st q options =
      (st.cache.map (fun p => (preorderPaths "" p.2.symbols).filterMap (fun n =>
        if nodeMatches q.toLower options n.1 then
          some { name := n.1.name, kind := n.1.kind, children := n.1.children
                 filePath := p.1, namePath := n.2 }
        else none))).flatten) ∧
    (searchSymbols nestedIndexState "B" { kind := none, exactMatch := false } =
      [{ name := "B", kind := "method"
         children := [SymbolNode.node "C" "variable" []]
         filePath := "f.js", namePath := "A/B" }]) ∧
    (searchSymbols nestedIndexState "b" { kind := none, exactMatch := true } =
      [{ name := "B", kind := "method"
         children := [SymbolNode.node "C" "variable" []]
         filePath := "f.js", namePath := "A/B" }]) := by
  have h1 : strIncludes "a" "b" = false := by decide
  have h2 : strIncludes "b" "b" = true := by decide
  have h3 : strIncludes "c" "b" = false := by decide
  have e1 : (("a" : String) == "b") = false := by decide
  have e2 : (("b" : String) == "b") = true := by decide
  have e3 : (("c" : String) == "b") = false := by decide
  refine ⟨findSymbolsInTree_eq_filterMap symbols searchName filePath options parentPath,
    ?_, ?_, ?_⟩
  · unfold searchSymbols
    exact congrArg List.flatten (List.map_congr_left (fun p _ =>
      findSymbolsInTree_eq_filterMap p.2.symbols q.toLower p.1 options ""))
  · unfold searchSymbols nestedIndexState nestedData
    rw [toLower_B]
    simp [findSymbolsInTree, toLower_A, toLower_B, toLower_C, h1, h2, h3]
  · unfold searchSymbols nestedIndexState nestedData
    rw [toLower_b]
    simp [findSymbolsInTree, toLower_A, toLower_B, toLower_C, e1, e2, e3]

end Apollo
